import Mathlib

/-!
Verification of the monaco-botbuilder-lg language-service adapter.

This file gives a shallow embedding of the two source files
`src/languageFeatures.ts` and `src/monaco.contribution.ts`:

* the pure helpers (`flattenDiagnosticMessageText`, `toSeverity`,
  `convertDiagnostics`) are translated as Lean functions;
* the stateful diagnostics adapter (`DiagnostcsAdapter`) is translated as a
  transition system over an explicit `SysState`: host events (model creation,
  disposal, language change, content edits), debounce-timer expiry, the two
  asynchronous continuation points of `_doValidate` (worker-handle resolution
  and diagnostics arrival) and their rejections, the configuration-change
  event, and the two configuration setters are each a pure step function;
* the completion adapter (`SuggestAdapter.provideCompletionItems`) is
  translated over an `Except` model of the worker-handle promise: `.then`
  with only a fulfilled-callback maps the success value and propagates a
  rejection, exactly as the source promise chain does.

Machine integers do not occur (all numbers are small ids/positions), so
`Nat`/`Int` are used directly.  All definitions are executable.
-/

namespace LG

/-- Editor marker severities (monaco.MarkerSeverity), as an enumeration;
only the constructors used by the adapter are relevant. -/
inductive MarkerSeverity where
  | Hint
  | Info
  | Warning
  | Error
deriving DecidableEq, Repr

/-- A possibly-nested diagnostic message: `messageText` plus an optional
`next` link (ts.DiagnosticMessageChain, with the `next?` optional field
rendered as an `Option`). -/
inductive DiagnosticMessageChain where
  | mk (messageText : String) (next : Option DiagnosticMessageChain)

/-- The `messageText` field of a chain link. -/
def DiagnosticMessageChain.messageText : DiagnosticMessageChain → String
  | .mk t _ => t

/-- The `next` field of a chain link. -/
def DiagnosticMessageChain.next : DiagnosticMessageChain → Option DiagnosticMessageChain
  | .mk _ n => n

/-- A worker diagnostic (ts.Diagnostic as used by `_convertDiagnostics`):
`start`/`startColumn`/`end`/`endColumn` position numbers, a numeric
`category`, and a message that is either a flat string or a chain. -/
structure Diagnostic where
  start : Int
  startColumn : Int
  «end» : Int
  endColumn : Int
  category : Int
  messageText : String ⊕ DiagnosticMessageChain

/-- A normalized editor marker (monaco.editor.IMarkerData as produced by
`_convertDiagnostics`). -/
structure IMarkerData where
  severity : MarkerSeverity
  startLineNumber : Int
  startColumn : Int
  endLineNumber : Int
  endColumn : Int
  message : String
deriving DecidableEq, Repr

/-- The string of `indent` copies of two spaces, built by appending `"  "`
once per loop iteration, mirroring `for (let i = 0; i < indent; i++)
result += "  "`. -/
def indentSpaces : Nat → String
  | 0 => ""
  | n + 1 => indentSpaces n ++ "  "

/-- The `while (diagnosticChain)` loop of `flattenDiagnosticMessageText`:
`result` is the accumulator, `indent` the loop counter.  Each iteration
prepends `newLine` plus `indent` copies of `"  "` when `indent` is nonzero,
appends the link text, increments `indent`, and follows `next`. -/
def flattenLoopChain (newLine : String) : DiagnosticMessageChain → String → Nat → String
  | .mk text next, result, indent =>
    let result1 := (if indent = 0 then result else result ++ newLine ++ indentSpaces indent) ++ text
    match next with
    | none => result1
    | some c => flattenLoopChain newLine c result1 (indent + 1)

/-- `flattenDiagnosticMessageText` from `languageFeatures.ts` lines 26-46:
a flat string is returned unchanged; a chain is rendered by the loop
starting from an empty `result` and `indent = 0`. -/
def flattenDiagnosticMessageText (messageText : String ⊕ DiagnosticMessageChain)
    (newLine : String) : String :=
  match messageText with
  | .inl s => s
  | .inr c => flattenLoopChain newLine c "" 0

/-- The list of link texts of a chain, in order. -/
def chainTexts : DiagnosticMessageChain → List String
  | .mk t none => [t]
  | .mk t (some c) => t :: chainTexts c

/-- Spec-side rendering of a chain's texts (from the spec's words in §4.1):
each link's text is concatenated, a newline is inserted before every link
after the first, and each subsequent link is indented by two spaces per
nesting depth, where depth starts at zero for the first link and increments
once per link. -/
def flattenMessageSpecAux (depth : Nat) : List String → String
  | [] => ""
  | t :: rest =>
    (if depth = 0 then t else "\n" ++ indentSpaces depth ++ t) ++
      flattenMessageSpecAux (depth + 1) rest

/-- Spec-side rendering of a whole chain, depth starting at zero. -/
def flattenMessageSpec (texts : List String) : String :=
  flattenMessageSpecAux 0 texts

/-- Modelled from the spec: the numeric `ts.DiagnosticCategory` codes come
from `lgService.ts`, which is not among the provided sources; the spec names
the four categories Error, Warning, Message and Suggestion, and the codes
follow the TypeScript services convention (Warning = 0, Error = 1,
Suggestion = 2, Message = 3).  The claims about `toSeverity` depend only on
the four codes being pairwise distinct and on 99 not being one of them. -/
def DiagnosticCategory.Warning : Int := 0

/-- Modelled from the spec: see `DiagnosticCategory.Warning`. -/
def DiagnosticCategory.Error : Int := 1

/-- Modelled from the spec: see `DiagnosticCategory.Warning`. -/
def DiagnosticCategory.Suggestion : Int := 2

/-- Modelled from the spec: see `DiagnosticCategory.Warning`. -/
def DiagnosticCategory.Message : Int := 3

/-- `toSeverity` from `languageFeatures.ts` lines 177-186: the `switch` on
the worker severity, with `default` falling back to Info. -/
def toSeverity (lsSeverity : Int) : MarkerSeverity :=
  if lsSeverity = DiagnosticCategory.Error then .Error
  else if lsSeverity = DiagnosticCategory.Warning then .Warning
  else if lsSeverity = DiagnosticCategory.Message then .Info
  else if lsSeverity = DiagnosticCategory.Suggestion then .Hint
  else .Info

/-- `_convertDiagnostics` from `languageFeatures.ts` lines 188-200: the
marker takes `diag.start`/`diag.startColumn` as start line/column and
`diag.end`/`diag.endColumn` as end line/column, the converted severity, and
the flattened message. -/
def convertDiagnostics (diag : Diagnostic) : IMarkerData :=
  { severity := toSeverity diag.category
    startLineNumber := diag.start
    startColumn := diag.startColumn
    endLineNumber := diag.«end»
    endColumn := diag.endColumn
    message := flattenDiagnosticMessageText diag.messageText "\n" }

/-- The `reduce((p, c) => c.concat(p), [])` step of `_doValidate` applied to
the array of per-promise diagnostic lists. -/
def reduceConcat (ls : List (List Diagnostic)) : List Diagnostic :=
  ls.foldl (fun p c => c ++ p) []

/-- A line/column range (monaco.IRange / the word range computed by
`provideCompletionItems`). -/
structure IRange where
  startLineNumber : Int
  startColumn : Int
  endLineNumber : Int
  endColumn : Int
deriving DecidableEq, Repr

/-- The two completion-item kinds used by the static catalog. -/
inductive CompletionItemKind where
  | Snippet
  | Function
deriving DecidableEq, Repr

/-- The only insert-text rule used: interpret the text as a snippet. -/
inductive CompletionItemInsertTextRule where
  | InsertAsSnippet
deriving DecidableEq, Repr

/-- A completion item of the static catalog. -/
structure CompletionItem where
  label : String
  kind : CompletionItemKind
  range : IRange
  insertText : String
  insertTextRules : CompletionItemInsertTextRule
  documentation : String
deriving DecidableEq, Repr

/-- The completion list returned by `provideCompletionItems`. -/
structure CompletionList where
  suggestions : List CompletionItem
deriving DecidableEq, Repr

/-- The static suggestion catalog built inside `provideCompletionItems`
(`languageFeatures.ts` lines 223-602), every item taking the word range
computed for the request.  Brace characters of the snippet placeholder
syntax are written with `\x7b`/`\x7d` escapes. -/
def staticSuggestions (wordRange : IRange) : List CompletionItem :=
  [ { label := "ifelse", kind := .Snippet, range := wordRange
      insertText := String.intercalate "\n"
        ["if ($\x7b1:condition\x7d) \x7b", "\t$0", "\x7d else \x7b", "\t", "\x7d"]
      insertTextRules := .InsertAsSnippet
      documentation := "If-Else Statement" }
  , { label := "template", kind := .Snippet, range := wordRange
      insertText := String.intercalate "\n"
        ["# $\x7b1:template_name\x7d($\x7b2:optional_parameters\x7d)", "- hi"]
      insertTextRules := .InsertAsSnippet
      documentation := "New Template" }
  , { label := "import", kind := .Snippet, range := wordRange
      insertText := String.intercalate "\n"
        ["[import]($\x7b1:relative path of extra lg file\x7d)"]
      insertTextRules := .InsertAsSnippet
      documentation := "New import" }
  , { label := "switchcase", kind := .Snippet, range := wordRange
      insertText := String.intercalate "\n"
        [ "SWITCH:\x7b$\x7b1:case\x7d\x7d"
        , "- CASE: \x7b$\x7b2:case1\x7d\x7d"
        , "    - $\x7b3:output1\x7d"
        , "- CASE: \x7b$\x7b4:case2\x7d\x7d"
        , "    - $\x7b5:output2\x7d"
        , "- DEFAULT:"
        , "   - $\x7b6:final output\x7d" ]
      insertTextRules := .InsertAsSnippet
      documentation := "Switch case Statement" }
  , { label := "add", kind := .Function, range := wordRange
      insertText := "add($\x7b1:number\x7d, $\x7b2:number\x7d)"
      insertTextRules := .InsertAsSnippet
      documentation := "Return the result from adding two numbers." }
  , { label := "div", kind := .Function, range := wordRange
      insertText := "div($\x7b1:number\x7d, $\x7b2:number\x7d)"
      insertTextRules := .InsertAsSnippet
      documentation := "Return the integer result from dividing two numbers." }
  , { label := "mod", kind := .Function, range := wordRange
      insertText := "mod($\x7b1:number\x7d, $\x7b2:number\x7d)"
      insertTextRules := .InsertAsSnippet
      documentation := "Return the remainder from dividing two numbers." }
  , { label := "mul", kind := .Function, range := wordRange
      insertText := "mul($\x7b1:number\x7d, $\x7b2:number\x7d)"
      insertTextRules := .InsertAsSnippet
      documentation := "Return the product from multiplying two numbers." }
  , { label := "sub", kind := .Function, range := wordRange
      insertText := "sub($\x7b1:number\x7d, $\x7b2:number\x7d)"
      insertTextRules := .InsertAsSnippet
      documentation := "Return the result from subtracting the second number from the first number." }
  , { label := "exp", kind := .Function, range := wordRange
      insertText := "exp($\x7b1:number\x7d, $\x7b2:number\x7d)"
      insertTextRules := .InsertAsSnippet
      documentation := "Return the result from subtracting the second number from the first number." }
  , { label := "concat", kind := .Function, range := wordRange
      insertText := "concat($\x7b1: string[]\x7d)"
      insertTextRules := .InsertAsSnippet
      documentation := "Combine two or more strings and return the resulting string. E.g. concat(‘hello’, ‘world’, ‘…’)" }
  , { label := "not", kind := .Function, range := wordRange
      insertText := "not($\x7b1: expression\x7d)"
      insertTextRules := .InsertAsSnippet
      documentation := "Check whether an expression is false. Return true when the expression is false, or return false when true." }
  , { label := "and", kind := .Function, range := wordRange
      insertText := "and($\x7b1: any[]\x7d)"
      insertTextRules := .InsertAsSnippet
      documentation := "Check whether all expressions are true. Return true when all expressions are true, or return false when at least one expression is false." }
  , { label := "or", kind := .Function, range := wordRange
      insertText := "or($\x7b1: any[]\x7d)"
      insertTextRules := .InsertAsSnippet
      documentation := "Check whether at least one expression is true. Return true when at least one expression is true, or return false when all are false." }
  , { label := "equals", kind := .Function, range := wordRange
      insertText := "equals($\x7b1: any\x7d, $\x7b2: any\x7d)"
      insertTextRules := .InsertAsSnippet
      documentation := "Comparison equal. Returns true if specified values are equal" }
  , { label := "greater", kind := .Function, range := wordRange
      insertText := "greater($\x7b1: any\x7d, $\x7b2: any\x7d)"
      insertTextRules := .InsertAsSnippet
      documentation := "Check whether the first value is greater than the second value. Return true when the first value is more, or return false when less." }
  , { label := "greaterOrEquals", kind := .Function, range := wordRange
      insertText := "greaterOrEquals($\x7b1: any\x7d, $\x7b2: any\x7d)"
      insertTextRules := .InsertAsSnippet
      documentation := "Check whether the first value is greater than or equal to the second value. Return true when the first value is greater or equal, or return false when the first value is less." }
  , { label := "less", kind := .Function, range := wordRange
      insertText := "less($\x7b1: any\x7d, $\x7b2: any\x7d)"
      insertTextRules := .InsertAsSnippet
      documentation := "Check whether the first value is less than the second value. Return true when the first value is less, or return false when the first value is more." }
  , { label := "lessOrEquals", kind := .Function, range := wordRange
      insertText := "lessOrEquals($\x7b1: any\x7d, $\x7b2: any\x7d)"
      insertTextRules := .InsertAsSnippet
      documentation := "Check whether the first value is less than or equal to the second value. Return true when the first value is less than or equal, or return false when the first value is more." }
  , { label := "join", kind := .Function, range := wordRange
      insertText := "join($\x7b1: Array\x7d, $\x7b2: string\x7d)"
      insertTextRules := .InsertAsSnippet
      documentation := "Return a string that has all the items from an array and has each character separated by a delimiter." }
  , { label := "first", kind := .Function, range := wordRange
      insertText := "first($\x7b1: Array|string\x7d)"
      insertTextRules := .InsertAsSnippet
      documentation := "Returns the first item from the collection" }
  , { label := "last", kind := .Function, range := wordRange
      insertText := "last($\x7b1: Array|string\x7d)"
      insertTextRules := .InsertAsSnippet
      documentation := "Returns the last item from the collection" }
  , { label := "foreach", kind := .Function, range := wordRange
      insertText := "foreach($\x7b1: Array\x7d, $\x7b2: string\x7d, $\x7b3: function\x7d)"
      insertTextRules := .InsertAsSnippet
      documentation := "Operate on each element and return the new collection" }
  , { label := "empty", kind := .Function, range := wordRange
      insertText := "empty($\x7b1: Array\x7d)"
      insertTextRules := .InsertAsSnippet
      documentation := "Check if the collection is empty" }
  , { label := "newGuid", kind := .Function, range := wordRange
      insertText := "newGuid()"
      insertTextRules := .InsertAsSnippet
      documentation := "Return new guid string" }
  , { label := "min", kind := .Function, range := wordRange
      insertText := "min($\x7b1: number[]\x7d)"
      insertTextRules := .InsertAsSnippet
      documentation := "Returns the smallest value from a collection" }
  , { label := "max", kind := .Function, range := wordRange
      insertText := "max($\x7b1: number[]\x7d)"
      insertTextRules := .InsertAsSnippet
      documentation := "Returns the largest value from a collection" }
  , { label := "average", kind := .Function, range := wordRange
      insertText := "average($\x7b1: number[]\x7d)"
      insertTextRules := .InsertAsSnippet
      documentation := "Returns the average value from a collection" }
  , { label := "sum", kind := .Function, range := wordRange
      insertText := "sum($\x7b1: number[]\x7d)"
      insertTextRules := .InsertAsSnippet
      documentation := "Return the result from adding numbers in a list." }
  , { label := "exists", kind := .Function, range := wordRange
      insertText := "exists($\x7b1: expression\x7d)"
      insertTextRules := .InsertAsSnippet
      documentation := "Evaluates an expression for truthiness." }
  , { label := "length", kind := .Function, range := wordRange
      insertText := "length($\x7b1: string\x7d)"
      insertTextRules := .InsertAsSnippet
      documentation := "Returns the length of a string." }
  , { label := "replace", kind := .Function, range := wordRange
      insertText := "replace($\x7b1: string\x7d,$\x7b2: string\x7d, $\x7b3: string\x7d)"
      insertTextRules := .InsertAsSnippet
      documentation := "Replace a substring with the specified string, and return the updated string. case sensitive" }
  , { label := "replaceIgnoreCase", kind := .Function, range := wordRange
      insertText := "replaceIgnoreCase($\x7b1: string\x7d,$\x7b2: string\x7d, $\x7b3: string\x7d)"
      insertTextRules := .InsertAsSnippet
      documentation := "Replace a substring with the specified string, and return the updated string. case in-sensitive" }
  , { label := "split", kind := .Function, range := wordRange
      insertText := "split($\x7b1: string\x7d,$\x7b2: string\x7d)"
      insertTextRules := .InsertAsSnippet
      documentation := "Returns an array that contains substrings based on the delimiter specified." }
  , { label := "substring", kind := .Function, range := wordRange
      insertText := "substring($\x7b1: string\x7d,$\x7b2: number\x7d, $\x7b3: number\x7d)"
      insertTextRules := .InsertAsSnippet
      documentation := "Returns characters from a string. Substring(sourceString, startPos, endPos). startPos cannot be less than 0. endPos greater than source strings length will be taken as the max length of the string" }
  , { label := "toLower", kind := .Function, range := wordRange
      insertText := "toLower($\x7b1: string\x7d)"
      insertTextRules := .InsertAsSnippet
      documentation := "Convert a string to all lower case characters" }
  , { label := "toUpper", kind := .Function, range := wordRange
      insertText := "toUpper($\x7b1: string\x7d)"
      insertTextRules := .InsertAsSnippet
      documentation := "Convert a string to all upper case characters" }
  , { label := "trim", kind := .Function, range := wordRange
      insertText := "trim($\x7b1: string\x7d)"
      insertTextRules := .InsertAsSnippet
      documentation := "Remove leading and trailing white spaces from a string" }
  , { label := "count", kind := .Function, range := wordRange
      insertText := "count($\x7b1: string|Array\x7d)"
      insertTextRules := .InsertAsSnippet
      documentation := "Returns the number of items in the collection" }
  , { label := "contains", kind := .Function, range := wordRange
      insertText := "contains($\x7b1: string|Array|Map\x7d, $\x7b2: stirng|object\x7d)"
      insertTextRules := .InsertAsSnippet
      documentation := "Works to find an item in a string or to find an item in an array or to find a parameter in a complex object. E.g. contains(‘hello world, ‘hello); contains([‘1’, ‘2’], ‘1’); contains(\x7b“foo”:”bar”\x7d, “foo”)" }
  , { label := "float", kind := .Function, range := wordRange
      insertText := "float($\x7b1: string\x7d)"
      insertTextRules := .InsertAsSnippet
      documentation := "Return floating point representation of the specified string or the string itself if conversion is not possible" }
  , { label := "int", kind := .Function, range := wordRange
      insertText := "int($\x7b1: string\x7d)"
      insertTextRules := .InsertAsSnippet
      documentation := "Return integer representation of the specified string or the string itself if conversion is not possible." }
  , { label := "string", kind := .Function, range := wordRange
      insertText := "string($\x7b1: any\x7d)"
      insertTextRules := .InsertAsSnippet
      documentation := "Return string version of the specified value." }
  , { label := "bool", kind := .Function, range := wordRange
      insertText := "bool($\x7b1: any\x7d)"
      insertTextRules := .InsertAsSnippet
      documentation := "Return Boolean representation of the specified object. Bool(‘true’), bool(1)" }
  , { label := "createArray", kind := .Function, range := wordRange
      insertText := "createArray($\x7b1: any[]\x7d)"
      insertTextRules := .InsertAsSnippet
      documentation := "Create an array from multiple inputs" }
  ]

/-- `SuggestAdapter.provideCompletionItems` (`languageFeatures.ts` lines
216-626) over an `Except` model of the worker-handle promise: the source is
`this._worker(resource).then(() => { ...; return { suggestions }; })` with
no rejection callback, so a fulfilled handle maps to the static catalog and
a rejected handle propagates its rejection to the returned promise. -/
def provideCompletionItems (wordRange : IRange)
    (workerHandle : Except String Unit) : Except String CompletionList :=
  workerHandle.map (fun _ => { suggestions := staticSuggestions wordRange })

/-- The completion trigger characters (`SuggestAdapter.triggerCharacters`). -/
def triggerCharacters : List Char := ['.']

/-! ## The diagnostics adapter as a transition system

The host (monaco editor) and the `DiagnostcsAdapter` run on one event loop;
every handler and asynchronous continuation is a pure step on the combined
state below.  Timers are host resources identified by fresh numeric ids
(`setTimeout` returns an id, `clearTimeout` removes the timer with that id,
if still pending); pending asynchronous `_doValidate` chains are identified
by fresh operation ids. -/

/-- An open text model: its uri, its language (`getModeId()`), and its
content as a list of lines (`getLinesContent()`). -/
structure Model where
  uri : String
  modeId : String
  lines : List String
deriving DecidableEq, Repr

/-- `model.getLinesContent().join('\n')`. -/
def contentOf (m : Model) : String :=
  String.intercalate "\n" m.lines

/-- `monaco.editor.getModel(uri)` over a model list. -/
def getModel : List Model → String → Option Model
  | [], _ => none
  | m :: ms, uri => if m.uri = uri then some m else getModel ms uri

/-- Replace the content-bearing model with uri `u` by `f` applied to it
(models are host-owned objects mutated in place; uris never change). -/
def updateModel (models : List Model) (u : String) (f : Model → Model) : List Model :=
  models.map (fun m => if m.uri = u then f m else m)

/-- A pending debounce timer: its `setTimeout` id, the uri of the model the
timer's callback validates, and the scheduled delay in milliseconds. -/
structure TimerRec where
  id : Nat
  uri : String
  delayMs : Nat
deriving DecidableEq, Repr

/-- `clearTimeout(handle)`: a no-op when the handle is still `undefined`,
otherwise removes the timer with that id if it is pending. -/
def clearTimeout (timers : List TimerRec) (handle : Option Nat) : List TimerRec :=
  match handle with
  | none => timers
  | some h => timers.filter (fun t => t.id ≠ h)

/-- The two suspension points of an in-flight `_doValidate` chain: waiting
for `this._worker(resource)` to resolve, or waiting for
`worker.getLGDiagnostics(contents)` to resolve. -/
inductive Stage where
  | awaitingWorker
  | awaitingDiagnostics
deriving DecidableEq, Repr

/-- An in-flight `_doValidate` chain: its id, the captured `resource` uri,
the captured `contents` string, and its current suspension point. -/
structure PendingOp where
  id : Nat
  uri : String
  contents : String
  stage : Stage
deriving DecidableEq, Repr

/-- The `LanguageServiceDefaultsImpl` state (`monaco.contribution.ts`):
the two configuration fields plus a counter of how many times the
`_onDidChange` emitter has fired (`_eagerModelSync` starts `undefined`). -/
structure DefaultsState where
  workerMaxIdleTime : Int
  eagerModelSync : Option Bool
  changeFireCount : Nat
deriving DecidableEq, Repr

/-- Association-list lookup by key (the first binding wins, as in a JS
object map). -/
def alookup {α β : Type} [DecidableEq α] : List (α × β) → α → Option β
  | [], _ => none
  | (k', v) :: l, k => if k' = k then some v else alookup l k

/-- Remove every binding for key `k`. -/
def aerase {α β : Type} [DecidableEq α] : List (α × β) → α → List (α × β)
  | [], _ => []
  | (k', v) :: l, k => if k' = k then aerase l k else (k', v) :: aerase l k

/-- Set key `k` to value `v`, replacing any previous binding. -/
def aset {α β : Type} [DecidableEq α] (l : List (α × β)) (k : α) (v : β) : List (α × β) :=
  (k, v) :: aerase l k

/-- The combined host-plus-adapter state.

* `models`: the host's open models.
* `markers`: the host's marker storage, keyed by (uri, owner-tag);
  `setModelMarkers` replaces the whole set for a key.
* `listeners`: the adapter's `_listener` map, keyed by `model.uri.toString()`;
  the value is the `handle` variable of that subscription's closure
  (`none` while still `undefined`, `some id` after a `setTimeout`).
* `timers`: the host's pending timers.
* `pending`: the in-flight `_doValidate` chains.
* `nextTimer`, `nextOp`: fresh-id counters.
* `defaults`: the `LanguageServiceDefaultsImpl` singleton. -/
structure SysState where
  models : List Model
  markers : List ((String × String) × List IMarkerData)
  listeners : List (String × Option Nat)
  timers : List TimerRec
  pending : List PendingOp
  nextTimer : Nat
  nextOp : Nat
  defaults : DefaultsState
deriving DecidableEq, Repr

/-- The markers currently displayed for `uri` under owner-tag `owner`. -/
def getMarkers (s : SysState) (uri owner : String) : List IMarkerData :=
  (alookup s.markers (uri, owner)).getD []

/-- `monaco.editor.setModelMarkers(model, owner, markers)`:
replace-entire-set semantics. -/
def setModelMarkers (s : SysState) (uri owner : String)
    (ms : List IMarkerData) : SysState :=
  { s with markers := aset s.markers (uri, owner) ms }

/-- Whether the adapter currently tracks `uri` (has a `_listener` entry). -/
def isTracked (s : SysState) (uri : String) : Bool :=
  (alookup s.listeners uri).isSome

/-- The pending timers whose callback validates `uri`. -/
def timersFor (s : SysState) (uri : String) : List TimerRec :=
  s.timers.filter (fun t => t.uri = uri)

/-- The synchronous part of `_doValidate(resource, contents)`
(`languageFeatures.ts` lines 155-175): issue the `this._worker(resource)`
request; the continuations are the `*Resolved`/`*Rejected` steps below. -/
def doValidate (s : SysState) (uri contents : String) : SysState :=
  { s with
    pending := s.pending ++ [{ id := s.nextOp, uri := uri, contents := contents,
                               stage := .awaitingWorker }]
    nextOp := s.nextOp + 1 }

/-- `onModelAdd` (`languageFeatures.ts` lines 93-113): models of another
language are ignored; otherwise a content-change subscription with a fresh
(still `undefined`) `handle` is registered under the uri and one validation
pass is triggered immediately for the current content. -/
def onModelAdd (selector : String) (s : SysState) (m : Model) : SysState :=
  if m.modeId ≠ selector then s
  else
    let s1 := { s with listeners := aset s.listeners m.uri none }
    doValidate s1 m.uri (contentOf m)

/-- `onModelRemoved` (`languageFeatures.ts` lines 115-122): the displayed
markers for the model under this adapter's owner-tag are cleared
unconditionally; then, only if a `_listener` entry exists, it is disposed
(the change subscription detached and `clearTimeout(handle)` run) and
deleted. -/
def onModelRemoved (selector : String) (s : SysState) (m : Model) : SysState :=
  let s1 := setModelMarkers s m.uri selector []
  match alookup s1.listeners m.uri with
  | none => s1
  | some handle =>
    { s1 with
      timers := clearTimeout s1.timers handle
      listeners := aerase s1.listeners m.uri }

/-- A content change on model `u`: the host updates the model's lines, then
fires the `onDidChangeContent` subscription if one is attached; the
subscription body runs `clearTimeout(handle)` and schedules a fresh 500 ms
timer whose callback validates the model's then-current content, storing
the new timer id in `handle`. -/
def editStep (s : SysState) (u : String) (newLines : List String) : SysState :=
  let s1 := { s with models := updateModel s.models u (fun m => { m with lines := newLines }) }
  match alookup s1.listeners u with
  | none => s1
  | some handle =>
    { s1 with
      timers := clearTimeout s1.timers handle ++ [{ id := s1.nextTimer, uri := u, delayMs := 500 }]
      listeners := aset s1.listeners u (some s1.nextTimer)
      nextTimer := s1.nextTimer + 1 }

/-- Expiry of the pending timer with id `tid`: the host removes the timer
and runs its callback
`() => this._doValidate(model.uri, model.getLinesContent().join('\n'))`,
which reads the model's content at expiry time.  (The arm where the model
no longer exists is unreachable along adapter traces, because every removal
path cancels the timer first.) -/
def timerFireStep (s : SysState) (tid : Nat) : SysState :=
  match s.timers.find? (fun t => t.id = tid) with
  | none => s
  | some t =>
    let s1 := { s with timers := s.timers.filter (fun t' => t'.id ≠ tid) }
    match getModel s1.models t.uri with
    | some m => doValidate s1 t.uri (contentOf m)
    | none => s1

/-- Resolution of the worker-handle promise of pending chain `opId` (the
first `.then` of `_doValidate`): if the model was disposed in the meantime
the chain returns `null` and the following `.then` publishes nothing (the
chain is dropped); otherwise `worker.getLGDiagnostics(contents)` is issued
and the chain now awaits the diagnostics. -/
def workerResolvedStep (s : SysState) (opId : Nat) : SysState :=
  match s.pending.find? (fun o => o.id = opId) with
  | none => s
  | some op =>
    if op.stage = .awaitingWorker then
      if (getModel s.models op.uri).isSome then
        { s with pending := s.pending.map (fun o =>
            if o.id = opId then { o with stage := .awaitingDiagnostics } else o) }
      else
        { s with pending := s.pending.filter (fun o => o.id ≠ opId) }
    else s

/-- Arrival of the diagnostics result for pending chain `opId` (the second
`.then` of `_doValidate`): if the model was disposed in the meantime
nothing is published; otherwise the diagnostic lists are reduced with
`(p, c) => c.concat(p)` starting from `[]`, converted, and published under
the adapter's owner-tag, replacing the previous set. -/
def diagnosticsArrivedStep (selector : String) (s : SysState) (opId : Nat)
    (diags : List Diagnostic) : SysState :=
  match s.pending.find? (fun o => o.id = opId) with
  | none => s
  | some op =>
    if op.stage = .awaitingDiagnostics then
      let s1 := { s with pending := s.pending.filter (fun o => o.id ≠ opId) }
      if (getModel s1.models op.uri).isSome then
        setModelMarkers s1 op.uri selector ((reduceConcat [diags]).map convertDiagnostics)
      else s1
    else s

/-- Rejection of the worker-handle promise of pending chain `opId`: the
chain's final `.then(undefined, err => {})` swallows the error and does
nothing; no state other than the disappearance of the chain changes and no
exception propagates (the step is total). -/
def workerRejectedStep (s : SysState) (opId : Nat) : SysState :=
  { s with pending := s.pending.filter (fun o => o.id ≠ opId) }

/-- Rejection of the diagnostics promise of pending chain `opId`: swallowed
by the same final `.then(undefined, err => {})`. -/
def diagnosticsRejectedStep (s : SysState) (opId : Nat) : SysState :=
  { s with pending := s.pending.filter (fun o => o.id ≠ opId) }

/-- `recomputeDiagostics` (`languageFeatures.ts` lines 139-145): for every
open model, run `onModelRemoved` then `onModelAdd` (the handlers never
mutate the host's model list, so iterating the snapshot is the loop over
`monaco.editor.getModels()`). -/
def recomputeDiagostics (selector : String) (s : SysState) : SysState :=
  s.models.foldl (fun acc m => onModelAdd selector (onModelRemoved selector acc m) m) s

/-- `onDidCreateModel`: the host creates a model (uris of open models are
unique, so creation with an already-open uri does not occur) and the
adapter's `onModelAdd` handler runs. -/
def createModelStep (selector : String) (s : SysState) (m : Model) : SysState :=
  if (getModel s.models m.uri).isSome then s
  else
    let s1 := { s with models := s.models ++ [m] }
    onModelAdd selector s1 m

/-- `onWillDisposeModel`: the adapter's `onModelRemoved` handler runs, then
the host removes the model. -/
def willDisposeStep (selector : String) (s : SysState) (uri : String) : SysState :=
  match getModel s.models uri with
  | none => s
  | some m =>
    let s1 := onModelRemoved selector s m
    { s1 with models := s1.models.filter (fun m' => m'.uri ≠ uri) }

/-- `onDidChangeModelLanguage`: the host has already switched the model's
language; the handler runs `onModelRemoved` then `onModelAdd` on the
updated model. -/
def changeLanguageStep (selector : String) (s : SysState) (uri newMode : String) : SysState :=
  match getModel s.models uri with
  | none => s
  | some m =>
    let m' := { m with modeId := newMode }
    let s1 := { s with models := updateModel s.models uri (fun mm => { mm with modeId := newMode }) }
    onModelAdd selector (onModelRemoved selector s1 m') m'

/-- `LanguageServiceDefaultsImpl.setMaximumWorkerIdleTime`: mutates only the
field; per the source comment it does not fire an event since no worker
restart is required. -/
def setMaximumWorkerIdleTime (s : SysState) (value : Int) : SysState :=
  { s with defaults := { s.defaults with workerMaxIdleTime := value } }

/-- `LanguageServiceDefaultsImpl.setEagerModelSync`: mutates only the field;
per the source comment it does not fire an event. -/
def setEagerModelSync (s : SysState) (value : Bool) : SysState :=
  { s with defaults := { s.defaults with eagerModelSync := some value } }

/-- The `_onDidChange` emitter firing: the adapter's subscription runs
`recomputeDiagostics`. -/
def fireDidChangeStep (selector : String) (s : SysState) : SysState :=
  let s1 := { s with defaults := { s.defaults with
                changeFireCount := s.defaults.changeFireCount + 1 } }
  recomputeDiagostics selector s1

/-- The event alphabet of the combined system: host lifecycle events, timer
expiry, the asynchronous continuations of `_doValidate`, the configuration
change event, and the two configuration setters. -/
inductive Event where
  | createModel (m : Model)
  | willDisposeModel (uri : String)
  | changeLanguage (uri : String) (newMode : String)
  | edit (uri : String) (newLines : List String)
  | timerFire (id : Nat)
  | workerResolve (opId : Nat)
  | workerReject (opId : Nat)
  | diagsResolve (opId : Nat) (diags : List Diagnostic)
  | diagsReject (opId : Nat)
  | fireDidChange
  | setMaxIdleTime (value : Int)
  | setEagerSync (value : Bool)

/-- One step of the combined system. -/
def step (selector : String) (s : SysState) : Event → SysState
  | .createModel m => createModelStep selector s m
  | .willDisposeModel uri => willDisposeStep selector s uri
  | .changeLanguage uri newMode => changeLanguageStep selector s uri newMode
  | .edit uri newLines => editStep s uri newLines
  | .timerFire id => timerFireStep s id
  | .workerResolve opId => workerResolvedStep s opId
  | .workerReject opId => workerRejectedStep s opId
  | .diagsResolve opId diags => diagnosticsArrivedStep selector s opId diags
  | .diagsReject opId => diagnosticsRejectedStep s opId
  | .fireDidChange => fireDidChangeStep selector s
  | .setMaxIdleTime v => setMaximumWorkerIdleTime s v
  | .setEagerSync b => setEagerModelSync s b

/-- The state at adapter construction: no models are open and nothing is
pending; `_workerMaxIdleTime` starts at `2 * 60 * 1000`, `_eagerModelSync`
is still `undefined`. -/
def initState : SysState :=
  { models := [], markers := [], listeners := [], timers := [], pending := []
    nextTimer := 0, nextOp := 0
    defaults := { workerMaxIdleTime := 120000, eagerModelSync := none, changeFireCount := 0 } }

/-- The state after a trace of events from construction. -/
def runEvents (selector : String) (evs : List Event) : SysState :=
  evs.foldl (step selector) initState

/-- Applying a burst of content edits to `uri` (rapid edits, no timer fires
in between). -/
def applyBurst (selector : String) (uri : String) (edits : List (List String))
    (s : SysState) : SysState :=
  (edits.map (Event.edit uri)).foldl (step selector) s

/-- Whether an event is one of the two configuration-setter calls. -/
def isSetterEvent : Event → Bool
  | .setMaxIdleTime _ => true
  | .setEagerSync _ => true
  | _ => false

/-- The three-link message chain ["A", "B", "C"]. -/
def chainABC : DiagnosticMessageChain :=
  .mk "A" (some (.mk "B" (some (.mk "C" none))))

/-- A sample word range for concrete completion requests. -/
def sampleWordRange : IRange :=
  { startLineNumber := 1, startColumn := 1, endLineNumber := 1, endColumn := 5 }

/-- Spec-side description of the validation passes issued by one
`recomputeDiagostics` run: one fresh `_doValidate` chain per open model of
the tracked language, in model order, with consecutive fresh ids starting
at `n` and the model's current content; models of other languages issue
none. -/
def validationBatchSpec (selector : String) : List Model → Nat → List PendingOp
  | [], _ => []
  | m :: ms, n =>
    if m.modeId = selector then
      { id := n, uri := m.uri, contents := contentOf m, stage := .awaitingWorker }
        :: validationBatchSpec selector ms (n + 1)
    else validationBatchSpec selector ms n

/-- Everything the diagnostics adapter can observe or affect, plus the
count of configuration-change firings (the recompute trigger). -/
def adapterObservables (s : SysState) :
    List Model × List ((String × String) × List IMarkerData) × List (String × Option Nat)
      × List TimerRec × List PendingOp × Nat × Nat × Nat :=
  (s.models, s.markers, s.listeners, s.timers, s.pending, s.nextTimer, s.nextOp,
    s.defaults.changeFireCount)

/-- The system invariant maintained by every step: each pending timer's id
is exactly the `handle` stored in its document's listener closure, timer
ids are fresh and pairwise distinct, and every tracked document's model is
open.  From the first and third clause, each document has at most one
pending debounce timer. -/
structure Inv (s : SysState) : Prop where
  tOK : ∀ t ∈ s.timers, alookup s.listeners t.uri = some (some t.id)
  tBound : ∀ t ∈ s.timers, t.id < s.nextTimer
  idsNodup : (s.timers.map (fun t => t.id)).Nodup
  lModel : ∀ p ∈ s.listeners, (getModel s.models p.1).isSome = true

/-- A trace that produces an untracked document that still has displayed
markers: the document is created in the tracked language (issuing a
validation pass), its language is then switched away (untracking it while
the pass is in flight), and the in-flight pass then resolves and publishes
markers — the disposal re-checks pass because the model still exists. -/
def c5events : List Event :=
  [ .createModel { uri := "file:///a.lg", modeId := "botbuilderlg", lines := ["# t"] }
  , .changeLanguage "file:///a.lg" "plaintext"
  , .workerResolve 0
  , .diagsResolve 0 [{ start := 1, startColumn := 1, «end» := 1, endColumn := 2,
                       category := 1, messageText := Sum.inl "boom" }] ]

/-- The state reached by `c5events`: `file:///a.lg` is untracked but has a
non-empty marker set under the adapter's owner-tag. -/
def c5state : SysState := runEvents "botbuilderlg" c5events

/-- The model object of `file:///a.lg` in `c5state` (language already
switched away). -/
def c5model : Model := { uri := "file:///a.lg", modeId := "plaintext", lines := ["# t"] }

/-- A state with one in-flight `_doValidate` chain whose document no longer
exists. -/
def c2state : SysState :=
  { initState with
    pending := [{ id := 0, uri := "file:///gone.lg", contents := "# t", stage := .awaitingWorker }]
    nextOp := 1 }

/-- The pending chain of `c2state`. -/
def c2op : PendingOp :=
  { id := 0, uri := "file:///gone.lg", contents := "# t", stage := .awaitingWorker }

/-- A state like `c2state` but already awaiting diagnostics. -/
def c2stateDiag : SysState :=
  { initState with
    pending := [{ id := 0, uri := "file:///gone.lg", contents := "# t",
                  stage := .awaitingDiagnostics }]
    nextOp := 1 }

/-- The pending chain of `c2stateDiag`. -/
def c2opDiag : PendingOp :=
  { id := 0, uri := "file:///gone.lg", contents := "# t", stage := .awaitingDiagnostics }

/-- A trace that opens one tracked document. -/
def c3evs : List Event :=
  [ .createModel { uri := "file:///w.lg", modeId := "botbuilderlg", lines := ["x"] } ]

/-- A concrete burst of two rapid edits. -/
def c3edits : List (List String) := [["a"], ["b", "c"]]

/-! ## Theorems -/

/-- The flattening loop equals the spec-side rendering of the remaining
texts, appended to the accumulator, for any starting indent. -/
theorem flattenLoopChain_eq : ∀ (c : DiagnosticMessageChain) (acc : String) (k : Nat),
    flattenLoopChain "\n" c acc k = acc ++ flattenMessageSpecAux k (chainTexts c)
  | .mk t none, acc, k => by
    simp only [flattenLoopChain, chainTexts, flattenMessageSpecAux]
    cases k with
    | zero => simp [String.append_empty]
    | succ n => simp [String.append_empty, String.append_assoc]
  | .mk t (some c), acc, k => by
    simp only [flattenLoopChain, chainTexts, flattenMessageSpecAux]
    rw [flattenLoopChain_eq c]
    cases k with
    | zero => simp [String.append_assoc]
    | succ n => simp [String.append_assoc]

/-- Claim C7: a flat string message passes through `flattenDiagnosticMessageText`
unchanged; a chained message is rendered by concatenating each link's text,
inserting a newline before every link after the first and indenting each
link after the first by two spaces per nesting depth, depth starting at
zero for the first link and incrementing once per link
(`flattenMessageSpec` is that spec-side description). -/
theorem c7_flatten_matches_spec :
    (∀ (s nl : String), flattenDiagnosticMessageText (Sum.inl s) nl = s)
    ∧ (∀ c : DiagnosticMessageChain,
        flattenDiagnosticMessageText (Sum.inr c) "\n" = flattenMessageSpec (chainTexts c)) := by
  refine ⟨fun s nl => rfl, fun c => ?_⟩
  show flattenLoopChain "\n" c "" 0 = flattenMessageSpecAux 0 (chainTexts c)
  rw [flattenLoopChain_eq, String.empty_append]

/-- Claim C1 counterexample: on the chain ["A", "B", "C"] the flattening
function produces `"A\n  B\n    C"` (the second link is indented one
two-space unit, the third two units), not the claimed `"A\nB\n  C"`. -/
theorem c1_counterexample_flattenABC :
    flattenDiagnosticMessageText (Sum.inr chainABC) "\n" = "A\n  B\n    C"
    ∧ flattenDiagnosticMessageText (Sum.inr chainABC) "\n" ≠ "A\nB\n  C" := by
  exact ⟨rfl, by decide⟩

/-- Claim C1 as amended: for the chain of three nested messages
["A", "B", "C"] the flattened result equals `"A"` + newline + two spaces +
`"B"` + newline + four spaces + `"C"`: the first link unindented, the k-th
link (counting from zero) indented by k two-space units, links joined by
newline. -/
theorem c1_amended_flattenABC :
    flattenDiagnosticMessageText (Sum.inr chainABC) "\n" = "A\n  B\n    C" := rfl

/-- Claim C6: `toSeverity` is total (a Lean function) and maps the worker
severities by the fixed table Error→Error, Warning→Warning, Message→Info,
Suggestion→Hint, while every unrecognized input value maps to Info. -/
theorem c6_toSeverity_table :
    toSeverity DiagnosticCategory.Error = MarkerSeverity.Error
    ∧ toSeverity DiagnosticCategory.Warning = MarkerSeverity.Warning
    ∧ toSeverity DiagnosticCategory.Message = MarkerSeverity.Info
    ∧ toSeverity DiagnosticCategory.Suggestion = MarkerSeverity.Hint
    ∧ ∀ n : Int, n ≠ DiagnosticCategory.Error → n ≠ DiagnosticCategory.Warning →
        n ≠ DiagnosticCategory.Message → n ≠ DiagnosticCategory.Suggestion →
        toSeverity n = MarkerSeverity.Info := by
  refine ⟨rfl, rfl, rfl, rfl, ?_⟩
  intro n h1 h2 h3 h4
  simp [toSeverity, h1, h2, h3, h4]

/-- Witness for C6: the unrecognized input value 99 maps to Info. -/
theorem c6_toSeverity_witness : toSeverity 99 = MarkerSeverity.Info :=
  c6_toSeverity_table.2.2.2.2 99 (by decide) (by decide) (by decide) (by decide)

/-- Claim C8 counterexample: when the worker-handle promise rejects, the
completion operation does not return the static catalog — the returned
promise rejects with the same error, because the source chains
`.then(onFulfilled)` with no rejection handler. -/
theorem c8_counterexample_rejectedHandle :
    provideCompletionItems sampleWordRange (Except.error "worker handle rejected")
      = Except.error "worker handle rejected"
    ∧ provideCompletionItems sampleWordRange (Except.error "worker handle rejected")
      ≠ Except.ok { suggestions := staticSuggestions sampleWordRange } :=
  ⟨rfl, fun h => Except.noConfusion h⟩

/-- Claim C8 as amended: the completion operation returns the static
suggestion catalog (with the request's word range) whenever the worker
handle resolves, ignoring the handle's value; when handle acquisition
rejects, the rejection propagates and no completion list is returned. -/
theorem c8_amended_provideCompletionItems (wr : IRange) :
    (∀ u : Unit, provideCompletionItems wr (Except.ok u)
        = Except.ok { suggestions := staticSuggestions wr })
    ∧ (∀ e : String, provideCompletionItems wr (Except.error e) = Except.error e) :=
  ⟨fun _ => rfl, fun _ => rfl⟩

/-! ### Association-list and model-list lemmas -/

theorem alookup_aerase_ne {α β : Type} [DecidableEq α] (l : List (α × β)) {k k' : α}
    (h : k' ≠ k) : alookup (aerase l k) k' = alookup l k' := by
  induction l with
  | nil => rfl
  | cons p l ih =>
    obtain ⟨a, b⟩ := p
    by_cases ha : a = k
    · subst ha
      have hak' : ¬ a = k' := fun hh => h hh.symm
      simp [aerase, alookup, hak', ih]
    · simp [aerase, alookup, ha, ih]

theorem alookup_aerase_self {α β : Type} [DecidableEq α] (l : List (α × β)) (k : α) :
    alookup (aerase l k) k = none := by
  induction l with
  | nil => rfl
  | cons p l ih =>
    obtain ⟨a, b⟩ := p
    by_cases ha : a = k
    · simp [aerase, ha, ih]
    · simp [aerase, alookup, ha, ih]

theorem alookup_aset_self {α β : Type} [DecidableEq α] (l : List (α × β)) (k : α) (v : β) :
    alookup (aset l k v) k = some v := by
  simp [aset, alookup]

theorem alookup_aset_ne {α β : Type} [DecidableEq α] (l : List (α × β)) {k k' : α} (v : β)
    (h : k' ≠ k) : alookup (aset l k v) k' = alookup l k' := by
  have hk : ¬ k = k' := fun hh => h hh.symm
  simp [aset, alookup, hk, alookup_aerase_ne l h]

theorem mem_aerase {α β : Type} [DecidableEq α] {l : List (α × β)} {k : α} {p : α × β}
    (h : p ∈ aerase l k) : p ∈ l ∧ p.1 ≠ k := by
  induction l with
  | nil => cases h
  | cons q l ih =>
    obtain ⟨a, b⟩ := q
    by_cases ha : a = k
    · simp only [aerase, if_pos ha] at h
      exact ⟨List.mem_cons_of_mem _ (ih h).1, (ih h).2⟩
    · simp only [aerase, if_neg ha] at h
      rcases List.mem_cons.mp h with h1 | h2
      · exact ⟨List.mem_cons.mpr (Or.inl h1), by simp [h1, ha]⟩
      · exact ⟨List.mem_cons_of_mem _ (ih h2).1, (ih h2).2⟩

theorem mem_aset {α β : Type} [DecidableEq α] {l : List (α × β)} {k : α} {v : β} {p : α × β}
    (h : p ∈ aset l k v) : p = (k, v) ∨ (p ∈ l ∧ p.1 ≠ k) := by
  rcases List.mem_cons.mp h with h1 | h2
  · exact Or.inl h1
  · exact Or.inr (mem_aerase h2)

theorem alookup_some_mem {α β : Type} [DecidableEq α] {l : List (α × β)} {k : α} {v : β}
    (h : alookup l k = some v) : (k, v) ∈ l := by
  induction l with
  | nil => cases h
  | cons q l ih =>
    obtain ⟨a, b⟩ := q
    by_cases ha : a = k
    · subst ha
      simp [alookup] at h
      subst h
      exact List.mem_cons_self _ _
    · simp [alookup, ha] at h
      exact List.mem_cons_of_mem _ (ih h)

theorem alookup_eq_none {α β : Type} [DecidableEq α] {l : List (α × β)} {k : α}
    (h : alookup l k = none) : ∀ p ∈ l, p.1 ≠ k := by
  induction l with
  | nil => intro p hp; cases hp
  | cons q l ih =>
    obtain ⟨a, b⟩ := q
    by_cases ha : a = k
    · simp [alookup, ha] at h
    · simp [alookup, ha] at h
      intro p hp
      rcases List.mem_cons.mp hp with h1 | h2
      · subst h1; exact ha
      · exact ih h p h2

theorem getModel_some_uri {models : List Model} {u : String} {m : Model}
    (h : getModel models u = some m) : m.uri = u ∧ m ∈ models := by
  induction models with
  | nil => cases h
  | cons m0 ms ih =>
    by_cases h0 : m0.uri = u
    · simp only [getModel, if_pos h0, Option.some.injEq] at h
      subst h
      exact ⟨h0, List.mem_cons_self _ _⟩
    · simp only [getModel, if_neg h0] at h
      exact ⟨(ih h).1, List.mem_cons_of_mem _ (ih h).2⟩

theorem getModel_isSome_of_mem {models : List Model} {m : Model} (h : m ∈ models) :
    (getModel models m.uri).isSome = true := by
  induction models with
  | nil => cases h
  | cons m0 ms ih =>
    by_cases h0 : m0.uri = m.uri
    · simp [getModel, if_pos h0]
    · rcases List.mem_cons.mp h with h1 | h2
      · subst h1; exact absurd rfl h0
      · simp only [getModel, if_neg h0]
        exact ih h2

theorem getModel_append_isSome {models extra : List Model} {u : String}
    (h : (getModel models u).isSome = true) :
    (getModel (models ++ extra) u).isSome = true := by
  induction models with
  | nil => cases h
  | cons m0 ms ih =>
    by_cases h0 : m0.uri = u
    · simp [getModel, if_pos h0]
    · simp only [getModel, if_neg h0] at h ⊢
      exact ih h

theorem getModel_updateModel (models : List Model) (u k : String) (f : Model → Model)
    (hf : ∀ m : Model, (f m).uri = m.uri) :
    getModel (updateModel models u f) k
      = (getModel models k).map (fun m => if m.uri = u then f m else m) := by
  have huri : ∀ mm : Model, (if mm.uri = u then f mm else mm).uri = mm.uri := by
    intro mm; by_cases hu : mm.uri = u <;> simp [hu, hf]
  induction models with
  | nil => rfl
  | cons m0 ms ih =>
    simp only [updateModel, List.map_cons] at *
    simp only [getModel, huri m0]
    by_cases h0 : m0.uri = k
    · rw [if_pos h0, if_pos h0]; rfl
    · rw [if_neg h0, if_neg h0]; exact ih

theorem getModel_filter_ne (models : List Model) (u k : String) (h : k ≠ u) :
    getModel (models.filter (fun m' => m'.uri ≠ u)) k = getModel models k := by
  induction models with
  | nil => rfl
  | cons m0 ms ih =>
    by_cases h0 : m0.uri = u
    · rw [List.filter_cons, if_neg (by simp [h0])]
      have hk : ¬ m0.uri = k := fun hh => h (by rw [← hh, h0])
      rw [ih]
      simp only [getModel, if_neg hk]
    · rw [List.filter_cons, if_pos (by simp [h0])]
      simp only [getModel]
      by_cases hk : m0.uri = k
      · rw [if_pos hk, if_pos hk]
      · rw [if_neg hk, if_neg hk]; exact ih

/-! ### Characterizations of the adapter's handlers -/

theorem onModelAdd_not_selector {sel : String} (s : SysState) {m : Model}
    (h : ¬ m.modeId = sel) : onModelAdd sel s m = s := by
  simp [onModelAdd, h]

theorem onModelAdd_selector {sel : String} (s : SysState) {m : Model}
    (h : m.modeId = sel) :
    onModelAdd sel s m
      = { s with
          listeners := aset s.listeners m.uri none
          pending := s.pending ++ [{ id := s.nextOp, uri := m.uri,
                                     contents := contentOf m, stage := .awaitingWorker }]
          nextOp := s.nextOp + 1 } := by
  simp [onModelAdd, h, doValidate]

theorem onModelRemoved_not_tracked {sel : String} {s : SysState} {m : Model}
    (h : alookup s.listeners m.uri = none) :
    onModelRemoved sel s m = { s with markers := aset s.markers (m.uri, sel) [] } := by
  simp [onModelRemoved, setModelMarkers, h]

theorem onModelRemoved_tracked {sel : String} {s : SysState} {m : Model} {hd : Option Nat}
    (h : alookup s.listeners m.uri = some hd) :
    onModelRemoved sel s m
      = { s with
          markers := aset s.markers (m.uri, sel) []
          timers := clearTimeout s.timers hd
          listeners := aerase s.listeners m.uri } := by
  simp [onModelRemoved, setModelMarkers, h]

theorem onModelRemoved_stable_fields (sel : String) (s : SysState) (m : Model) :
    (onModelRemoved sel s m).models = s.models
    ∧ (onModelRemoved sel s m).pending = s.pending
    ∧ (onModelRemoved sel s m).nextOp = s.nextOp
    ∧ (onModelRemoved sel s m).nextTimer = s.nextTimer := by
  cases h : alookup s.listeners m.uri with
  | none => rw [onModelRemoved_not_tracked h]; exact ⟨rfl, rfl, rfl, rfl⟩
  | some hd => rw [onModelRemoved_tracked h]; exact ⟨rfl, rfl, rfl, rfl⟩

theorem workerResolvedStep_stable_fields (s : SysState) (opId : Nat) :
    (workerResolvedStep s opId).models = s.models
    ∧ (workerResolvedStep s opId).markers = s.markers
    ∧ (workerResolvedStep s opId).listeners = s.listeners
    ∧ (workerResolvedStep s opId).timers = s.timers
    ∧ (workerResolvedStep s opId).nextTimer = s.nextTimer := by
  unfold workerResolvedStep
  cases s.pending.find? (fun o => o.id = opId) with
  | none => exact ⟨rfl, rfl, rfl, rfl, rfl⟩
  | some op =>
    dsimp only
    split_ifs <;> exact ⟨rfl, rfl, rfl, rfl, rfl⟩

theorem diagnosticsArrivedStep_stable_fields (sel : String) (s : SysState) (opId : Nat)
    (diags : List Diagnostic) :
    (diagnosticsArrivedStep sel s opId diags).models = s.models
    ∧ (diagnosticsArrivedStep sel s opId diags).listeners = s.listeners
    ∧ (diagnosticsArrivedStep sel s opId diags).timers = s.timers
    ∧ (diagnosticsArrivedStep sel s opId diags).nextTimer = s.nextTimer := by
  unfold diagnosticsArrivedStep
  cases s.pending.find? (fun o => o.id = opId) with
  | none => exact ⟨rfl, rfl, rfl, rfl⟩
  | some op =>
    dsimp only
    split_ifs <;> exact ⟨rfl, rfl, rfl, rfl⟩

/-- Claim C4: a rejection of the worker-handle promise or of the
diagnostics promise is swallowed by the final `.then(undefined, err => {})`
of `_doValidate`: the markers (and every other host and adapter structure)
are unchanged, only the in-flight chain disappears; no exception propagates
to the event loop — each rejection step is a total function on states. -/
theorem c4_worker_failures_swallowed (sel : String) (s : SysState) (opId : Nat) :
    (step sel s (.workerReject opId)).markers = s.markers
    ∧ (step sel s (.workerReject opId)).models = s.models
    ∧ (step sel s (.workerReject opId)).listeners = s.listeners
    ∧ (step sel s (.workerReject opId)).timers = s.timers
    ∧ (step sel s (.workerReject opId)).pending = s.pending.filter (fun o => o.id ≠ opId)
    ∧ (step sel s (.diagsReject opId)).markers = s.markers
    ∧ (step sel s (.diagsReject opId)).models = s.models
    ∧ (step sel s (.diagsReject opId)).listeners = s.listeners
    ∧ (step sel s (.diagsReject opId)).timers = s.timers
    ∧ (step sel s (.diagsReject opId)).pending = s.pending.filter (fun o => o.id ≠ opId) :=
  ⟨rfl, rfl, rfl, rfl, rfl, rfl, rfl, rfl, rfl, rfl⟩

/-- Claim C2: if the document of an in-flight `_doValidate` chain no longer
exists (it was disposed after the pass was issued), then neither the
worker-handle resolution step nor the diagnostics-arrival step publishes
any markers — existence is re-checked at each continuation and the
operation is silently abandoned (the chain is dropped from the pending
set, with no error surfaced). -/
theorem c2_disposed_document_not_published (sel : String) (s : SysState) (opId : Nat)
    (op : PendingOp)
    (hfind : s.pending.find? (fun o => o.id = opId) = some op)
    (hgone : getModel s.models op.uri = none) :
    (step sel s (.workerResolve opId)).markers = s.markers
    ∧ (∀ diags, (step sel s (.diagsResolve opId diags)).markers = s.markers)
    ∧ (op.stage = .awaitingWorker →
        (step sel s (.workerResolve opId)).pending = s.pending.filter (fun o => o.id ≠ opId))
    ∧ (op.stage = .awaitingDiagnostics → ∀ diags,
        (step sel s (.diagsResolve opId diags)).pending
          = s.pending.filter (fun o => o.id ≠ opId)) := by
  refine ⟨(workerResolvedStep_stable_fields s opId).2.1, ?_, ?_, ?_⟩
  · intro diags
    show (diagnosticsArrivedStep sel s opId diags).markers = s.markers
    simp only [diagnosticsArrivedStep, hfind]
    by_cases hst : op.stage = .awaitingDiagnostics
    · rw [if_pos hst, if_neg (by simp [hgone])]
    · rw [if_neg hst]
  · intro hst
    show (workerResolvedStep s opId).pending = s.pending.filter (fun o => o.id ≠ opId)
    simp only [workerResolvedStep, hfind]
    rw [if_pos hst, if_neg (by simp [hgone])]
  · intro hst diags
    show (diagnosticsArrivedStep sel s opId diags).pending
      = s.pending.filter (fun o => o.id ≠ opId)
    simp only [diagnosticsArrivedStep, hfind]
    rw [if_pos hst, if_neg (by simp [hgone])]

/-- Witness for C2: in the concrete state `c2state` (one chain awaiting the
worker, its document gone) the resolution step publishes nothing and drops
the chain, and in `c2stateDiag` the diagnostics arrival publishes nothing. -/
theorem c2_disposed_document_witness :
    (step "botbuilderlg" c2state (.workerResolve 0)).markers = c2state.markers
    ∧ (step "botbuilderlg" c2state (.workerResolve 0)).pending
        = c2state.pending.filter (fun o => o.id ≠ 0)
    ∧ (step "botbuilderlg" c2stateDiag (.diagsResolve 0 [])).markers = c2stateDiag.markers
    ∧ (step "botbuilderlg" c2stateDiag (.diagsResolve 0 [])).pending
        = c2stateDiag.pending.filter (fun o => o.id ≠ 0) := by
  have h1 := c2_disposed_document_not_published "botbuilderlg" c2state 0 c2op rfl rfl
  have h2 := c2_disposed_document_not_published "botbuilderlg" c2stateDiag 0 c2opDiag rfl rfl
  exact ⟨h1.1, h1.2.2.1 rfl, h2.2.1 [], h2.2.2.2 rfl []⟩

/-- Claim C5 counterexample: in the reachable state `c5state` the document
`file:///a.lg` is not tracked yet has a non-empty marker set under the
adapter's owner-tag, and running the untrack handler (`onModelRemoved`) on
it clears those markers — an observable state change, so untrack is not a
no-op on untracked documents (`setModelMarkers(model, selector, [])` runs
before the tracked-check). -/
theorem c5_counterexample_untrack_not_noop :
    isTracked c5state "file:///a.lg" = false
    ∧ getMarkers c5state "file:///a.lg" "botbuilderlg"
        = [{ severity := .Error, startLineNumber := 1, startColumn := 1,
             endLineNumber := 1, endColumn := 2, message := "boom" }]
    ∧ getMarkers (onModelRemoved "botbuilderlg" c5state c5model)
        "file:///a.lg" "botbuilderlg" = [] := by
  refine ⟨by decide, by decide, by decide⟩

/-- Claim C5 as amended: Untrack(document) clears the displayed markers for
the document under the adapter's owner-tag unconditionally; only when the
document is tracked does it additionally cancel the pending debounce timer
(`clearTimeout(handle)`), detach the change listener and remove the
subscription record; for a document that was not tracked the only
observable effect is the (unconditional) clearing of its markers — every
other component of the state is untouched. -/
theorem c5_amended_untrack (sel : String) (s : SysState) (m : Model) :
    getMarkers (onModelRemoved sel s m) m.uri sel = []
    ∧ ((alookup s.listeners m.uri = none) →
        onModelRemoved sel s m = { s with markers := aset s.markers (m.uri, sel) [] })
    ∧ (∀ hd, alookup s.listeners m.uri = some hd →
        onModelRemoved sel s m
          = { s with
              markers := aset s.markers (m.uri, sel) []
              timers := clearTimeout s.timers hd
              listeners := aerase s.listeners m.uri }) := by
  refine ⟨?_, ?_, ?_⟩
  · cases hl : alookup s.listeners m.uri with
    | none => rw [onModelRemoved_not_tracked hl]; simp [getMarkers, alookup_aset_self]
    | some hd => rw [onModelRemoved_tracked hl]; simp [getMarkers, alookup_aset_self]
  · intro hl; exact onModelRemoved_not_tracked hl
  · intro hd hl; exact onModelRemoved_tracked hl

/-- Witness for C5 (amended): on the untracked document of `c5state` only
the markers change. -/
theorem c5_amended_untrack_witness :
    getMarkers (onModelRemoved "botbuilderlg" c5state c5model)
        "file:///a.lg" "botbuilderlg" = []
    ∧ onModelRemoved "botbuilderlg" c5state c5model
        = { c5state with
            markers := aset c5state.markers ("file:///a.lg", "botbuilderlg") [] } := by
  have h := c5_amended_untrack "botbuilderlg" c5state c5model
  exact ⟨h.1, h.2.1 (by decide)⟩

/-- The fold inside `recomputeDiagostics` issues exactly the batch
described by `validationBatchSpec` (one fresh pass per tracked-language
model, in order, with consecutive fresh ids), advances the fresh-id counter
by the number of tracked-language models, and never touches the host's
model list. -/
theorem recompute_fold_spec (sel : String) :
    ∀ (ms : List Model) (acc : SysState),
      ((ms.foldl (fun a m => onModelAdd sel (onModelRemoved sel a m) m) acc).pending
          = acc.pending ++ validationBatchSpec sel ms acc.nextOp)
      ∧ ((ms.foldl (fun a m => onModelAdd sel (onModelRemoved sel a m) m) acc).nextOp
          = acc.nextOp + ms.countP (fun m => m.modeId = sel))
      ∧ ((ms.foldl (fun a m => onModelAdd sel (onModelRemoved sel a m) m) acc).models
          = acc.models) := by
  intro ms
  induction ms with
  | nil => intro acc; simp [validationBatchSpec]
  | cons m ms ih =>
    intro acc
    obtain ⟨hrm, hrp, hro, _⟩ := onModelRemoved_stable_fields sel acc m
    by_cases hm : m.modeId = sel
    · have hb := onModelAdd_selector (onModelRemoved sel acc m) hm
      have hbp : (onModelAdd sel (onModelRemoved sel acc m) m).pending
          = acc.pending ++ [{ id := acc.nextOp, uri := m.uri, contents := contentOf m,
                              stage := .awaitingWorker }] := by
        rw [hb]; dsimp only; rw [hrp, hro]
      have hbo : (onModelAdd sel (onModelRemoved sel acc m) m).nextOp = acc.nextOp + 1 := by
        rw [hb]; dsimp only; rw [hro]
      have hbm : (onModelAdd sel (onModelRemoved sel acc m) m).models = acc.models := by
        rw [hb]; dsimp only; rw [hrm]
      obtain ⟨ihp, iho, ihm⟩ := ih (onModelAdd sel (onModelRemoved sel acc m) m)
      refine ⟨?_, ?_, ?_⟩
      · rw [List.foldl_cons, ihp, hbp, hbo]
        simp [validationBatchSpec, hm, List.append_assoc]
      · rw [List.foldl_cons, iho, hbo]
        simp [List.countP_cons, hm]
        omega
      · rw [List.foldl_cons, ihm, hbm]
    · have hb := onModelAdd_not_selector (onModelRemoved sel acc m) hm
      obtain ⟨ihp, iho, ihm⟩ := ih (onModelAdd sel (onModelRemoved sel acc m) m)
      refine ⟨?_, ?_, ?_⟩
      · rw [List.foldl_cons, ihp, hb, hrp, hro]
        simp [validationBatchSpec, hm]
      · rw [List.foldl_cons, iho, hb, hro]
        simp [List.countP_cons, hm]
      · rw [List.foldl_cons, ihm, hb, hrm]

/-- Claim C9: when the global validation-configuration change event fires,
the adapter performs Untrack (`onModelRemoved`) followed by Track
(`onModelAdd`) for every currently open model (that is the definition of
`recomputeDiagostics`), which issues exactly one fresh validation pass per
open document of the tracked language — with that document's current
content — and none for documents of other languages; the host's model list
is unchanged. -/
theorem c9_config_change_revalidates_all (sel : String) (s : SysState) :
    (step sel s .fireDidChange).pending
        = s.pending ++ validationBatchSpec sel s.models s.nextOp
    ∧ (step sel s .fireDidChange).models = s.models := by
  have h := recompute_fold_spec sel s.models
    { s with defaults := { s.defaults with
        changeFireCount := s.defaults.changeFireCount + 1 } }
  exact ⟨h.1, h.2.2⟩

/-- Any run of configuration-setter calls leaves every adapter observable
(and the change-event fire count) untouched. -/
theorem setters_preserve_observables (sel : String) :
    ∀ (evs : List Event) (s : SysState),
      (∀ e ∈ evs, isSetterEvent e = true) →
      adapterObservables (evs.foldl (step sel) s) = adapterObservables s
  | [], _, _ => rfl
  | e :: evs, s, h => by
    have he := h e (List.mem_cons_self _ _)
    have hstep : adapterObservables (step sel s e) = adapterObservables s := by
      cases e <;> simp [isSetterEvent] at he <;> rfl
    rw [List.foldl_cons,
      setters_preserve_observables sel evs (step sel s e)
        (fun e' he' => h e' (List.mem_cons_of_mem _ he')),
      hstep]

/-- Claim C10: `setMaximumWorkerIdleTime` and `setEagerModelSync` mutate
only their configuration field and do not fire `_onDidChange` (the fire
count is unchanged), so over any sequence of such setter calls the
diagnostics adapter's recompute path is never triggered and no
re-validation occurs — markers, listeners, timers and pending validations
are all unchanged. -/
theorem c10_setters_never_trigger_recompute (sel : String) (s : SysState)
    (evs : List Event) (h : ∀ e ∈ evs, isSetterEvent e = true) :
    adapterObservables (evs.foldl (step sel) s) = adapterObservables s
    ∧ (∀ v : Int,
        (setMaximumWorkerIdleTime s v).defaults.workerMaxIdleTime = v
        ∧ (setMaximumWorkerIdleTime s v).defaults.eagerModelSync = s.defaults.eagerModelSync
        ∧ adapterObservables (setMaximumWorkerIdleTime s v) = adapterObservables s)
    ∧ (∀ b : Bool,
        (setEagerModelSync s b).defaults.eagerModelSync = some b
        ∧ (setEagerModelSync s b).defaults.workerMaxIdleTime = s.defaults.workerMaxIdleTime
        ∧ adapterObservables (setEagerModelSync s b) = adapterObservables s) :=
  ⟨setters_preserve_observables sel evs s h,
   fun _ => ⟨rfl, rfl, rfl⟩, fun _ => ⟨rfl, rfl, rfl⟩⟩

/-- Witness for C10: a concrete pair of setter calls leaves the adapter
observables of the initial state unchanged. -/
theorem c10_setters_witness :
    adapterObservables
        ([Event.setMaxIdleTime 5, Event.setEagerSync true].foldl (step "botbuilderlg") initState)
      = adapterObservables initState :=
  (c10_setters_never_trigger_recompute "botbuilderlg" initState
    [Event.setMaxIdleTime 5, Event.setEagerSync true] (by decide)).1

/-! ### The timer invariant and its preservation -/

theorem mem_clearTimeout {l : List TimerRec} {h : Option Nat} {t : TimerRec}
    (ht : t ∈ clearTimeout l h) : t ∈ l := by
  cases h with
  | none => exact ht
  | some hv => exact List.mem_of_mem_filter ht

theorem clearTimeout_some_id_ne {l : List TimerRec} {hv : Nat} {t : TimerRec}
    (ht : t ∈ clearTimeout l (some hv)) : t.id ≠ hv := by
  have := (List.mem_filter.mp ht).2
  simpa using this

theorem ids_nodup_of_sublist {l l' : List TimerRec}
    (hs : List.Sublist l l') (h : (l'.map (fun t => t.id)).Nodup) :
    (l.map (fun t => t.id)).Nodup :=
  h.sublist (hs.map _)

theorem clearTimeout_sublist (l : List TimerRec) (h : Option Nat) :
    List.Sublist (clearTimeout l h) l := by
  cases h with
  | none => exact List.Sublist.refl l
  | some hv => exact List.filter_sublist l

theorem inv_of_stable {s s' : SysState} (h : Inv s)
    (ht : s'.timers = s.timers) (hl : s'.listeners = s.listeners)
    (hn : s'.nextTimer = s.nextTimer)
    (hm : ∀ k, (getModel s.models k).isSome = true → (getModel s'.models k).isSome = true) :
    Inv s' := by
  refine ⟨?_, ?_, ?_, ?_⟩
  · intro t htm; rw [hl]; exact h.tOK t (by rw [← ht]; exact htm)
  · intro t htm; rw [hn]; exact h.tBound t (by rw [← ht]; exact htm)
  · rw [ht]; exact h.idsNodup
  · intro p hp; exact hm p.1 (h.lModel p (by rw [← hl]; exact hp))

theorem tracked_no_timer_mismatch {s : SysState} (h : Inv s) {u : String}
    (hl : alookup s.listeners u = none) :
    ∀ t ∈ s.timers, t.uri ≠ u := by
  intro t ht huri
  have h2 := h.tOK t ht
  rw [huri, hl] at h2
  cases h2

theorem tracked_none_no_timer {s : SysState} (h : Inv s) {u : String}
    (hl : alookup s.listeners u = some none) :
    ∀ t ∈ s.timers, t.uri ≠ u := by
  intro t ht huri
  have h2 := h.tOK t ht
  rw [huri, hl] at h2
  simp at h2

theorem clearTimeout_handle_no_uri {s : SysState} (h : Inv s) {u : String} {hd : Option Nat}
    (hl : alookup s.listeners u = some hd) :
    ∀ t ∈ clearTimeout s.timers hd, t.uri ≠ u := by
  cases hd with
  | none => exact tracked_none_no_timer h hl
  | some hv =>
    intro t ht huri
    have h2 := h.tOK t (mem_clearTimeout ht)
    rw [huri, hl] at h2
    have h3 : hv = t.id := by
      injection h2 with h4
      injection h4
    exact clearTimeout_some_id_ne ht h3.symm

theorem inv_onModelRemoved (sel : String) {s : SysState} (m : Model) (h : Inv s) :
    Inv (onModelRemoved sel s m)
    ∧ (∀ t ∈ (onModelRemoved sel s m).timers, t.uri ≠ m.uri)
    ∧ alookup (onModelRemoved sel s m).listeners m.uri = none := by
  cases hl : alookup s.listeners m.uri with
  | none =>
    rw [onModelRemoved_not_tracked hl]
    exact ⟨⟨h.tOK, h.tBound, h.idsNodup, h.lModel⟩,
      tracked_no_timer_mismatch h hl, hl⟩
  | some hd =>
    rw [onModelRemoved_tracked hl]
    have hnt : ∀ t ∈ clearTimeout s.timers hd, t.uri ≠ m.uri :=
      clearTimeout_handle_no_uri h hl
    refine ⟨⟨?_, ?_, ?_, ?_⟩, hnt, alookup_aerase_self _ _⟩
    · intro t ht
      rw [alookup_aerase_ne _ (hnt t ht)]
      exact h.tOK t (mem_clearTimeout ht)
    · intro t ht
      exact h.tBound t (mem_clearTimeout ht)
    · exact ids_nodup_of_sublist (clearTimeout_sublist _ _) h.idsNodup
    · intro p hp
      exact h.lModel p (mem_aerase hp).1

theorem inv_onModelAdd {sel : String} {s : SysState} {m : Model} (h : Inv s)
    (hnt : ∀ t ∈ s.timers, t.uri ≠ m.uri)
    (hm : (getModel s.models m.uri).isSome = true) :
    Inv (onModelAdd sel s m) := by
  by_cases hsel : m.modeId = sel
  · rw [onModelAdd_selector s hsel]
    refine ⟨?_, h.tBound, h.idsNodup, ?_⟩
    · intro t ht
      rw [alookup_aset_ne _ _ (hnt t ht)]
      exact h.tOK t ht
    · intro p hp
      rcases mem_aset hp with h1 | h2
      · rw [h1]; exact hm
      · exact h.lModel p h2.1
  · rw [onModelAdd_not_selector s hsel]; exact h

theorem onModelAdd_models (sel : String) (s : SysState) (m : Model) :
    (onModelAdd sel s m).models = s.models := by
  by_cases hsel : m.modeId = sel
  · rw [onModelAdd_selector s hsel]
  · rw [onModelAdd_not_selector s hsel]

theorem editStep_not_tracked {s : SysState} {u : String} {newLines : List String}
    (hl : alookup s.listeners u = none) :
    editStep s u newLines
      = { s with models := updateModel s.models u (fun m => { m with lines := newLines }) } := by
  simp [editStep, hl]

theorem editStep_tracked {s : SysState} {u : String} {newLines : List String} {hd : Option Nat}
    (hl : alookup s.listeners u = some hd) :
    editStep s u newLines
      = { s with
          models := updateModel s.models u (fun m => { m with lines := newLines })
          timers := clearTimeout s.timers hd
                      ++ [{ id := s.nextTimer, uri := u, delayMs := 500 }]
          listeners := aset s.listeners u (some s.nextTimer)
          nextTimer := s.nextTimer + 1 } := by
  simp [editStep, hl]

theorem updateModel_isSome (models : List Model) (u k : String) (f : Model → Model)
    (hf : ∀ m : Model, (f m).uri = m.uri) :
    (getModel (updateModel models u f) k).isSome = (getModel models k).isSome := by
  rw [getModel_updateModel models u k f hf]
  cases getModel models k <;> rfl

theorem inv_editStep {s : SysState} {u : String} {newLines : List String} (h : Inv s) :
    Inv (editStep s u newLines) := by
  have hmdl : ∀ k, (getModel (updateModel s.models u
      (fun m => { m with lines := newLines })) k).isSome = (getModel s.models k).isSome :=
    fun k => updateModel_isSome s.models u k _ (fun m => rfl)
  cases hl : alookup s.listeners u with
  | none =>
    rw [editStep_not_tracked hl]
    exact ⟨h.tOK, h.tBound, h.idsNodup, fun p hp => (hmdl p.1).trans (h.lModel p hp)⟩
  | some hd =>
    rw [editStep_tracked hl]
    have hsurv : ∀ t ∈ clearTimeout s.timers hd, t.uri ≠ u :=
      clearTimeout_handle_no_uri h hl
    refine ⟨?_, ?_, ?_, ?_⟩
    · intro t ht
      rcases List.mem_append.mp ht with h1 | h2
      · rw [alookup_aset_ne _ _ (hsurv t h1)]
        exact h.tOK t (mem_clearTimeout h1)
      · rw [List.mem_singleton.mp h2]
        exact alookup_aset_self _ _ _
    · intro t ht
      rcases List.mem_append.mp ht with h1 | h2
      · exact Nat.lt_succ_of_lt (h.tBound t (mem_clearTimeout h1))
      · rw [List.mem_singleton.mp h2]
        exact Nat.lt_succ_self _
    · rw [List.map_append]
      refine List.nodup_append.mpr ⟨?_, List.nodup_singleton _, ?_⟩
      · exact ids_nodup_of_sublist (clearTimeout_sublist _ _) h.idsNodup
      · intro x hx1 hx2
        rcases List.mem_map.mp hx1 with ⟨t, ht, rfl⟩
        have := h.tBound t (mem_clearTimeout ht)
        rw [List.mem_singleton.mp hx2] at this
        exact absurd this (Nat.lt_irrefl _)
    · intro p hp
      rcases mem_aset hp with h1 | h2
      · rw [h1]
        rw [hmdl u]
        exact h.lModel (u, hd) (alookup_some_mem hl)
      · rw [hmdl p.1]
        exact h.lModel p h2.1

theorem timerFireStep_notfound {s : SysState} {tid : Nat}
    (hf : s.timers.find? (fun t => t.id = tid) = none) :
    timerFireStep s tid = s := by
  simp [timerFireStep, hf]

theorem timerFireStep_found_model {s : SysState} {tid : Nat} {t : TimerRec} {m : Model}
    (hf : s.timers.find? (fun t' => t'.id = tid) = some t)
    (hm : getModel s.models t.uri = some m) :
    timerFireStep s tid
      = { s with
          timers := s.timers.filter (fun t' => t'.id ≠ tid)
          pending := s.pending ++ [{ id := s.nextOp, uri := t.uri,
                                     contents := contentOf m, stage := .awaitingWorker }]
          nextOp := s.nextOp + 1 } := by
  simp [timerFireStep, hf, hm, doValidate]

theorem timerFireStep_found_nomodel {s : SysState} {tid : Nat} {t : TimerRec}
    (hf : s.timers.find? (fun t' => t'.id = tid) = some t)
    (hm : getModel s.models t.uri = none) :
    timerFireStep s tid
      = { s with timers := s.timers.filter (fun t' => t'.id ≠ tid) } := by
  simp [timerFireStep, hf, hm]

theorem inv_timers_filter {s : SysState} (h : Inv s) (p : TimerRec → Bool) :
    Inv { s with timers := s.timers.filter p } := by
  refine ⟨?_, ?_, ?_, h.lModel⟩
  · intro t ht; exact h.tOK t (List.mem_of_mem_filter ht)
  · intro t ht; exact h.tBound t (List.mem_of_mem_filter ht)
  · exact ids_nodup_of_sublist (List.filter_sublist _) h.idsNodup

theorem inv_timerFireStep {s : SysState} {tid : Nat} (h : Inv s) :
    Inv (timerFireStep s tid) := by
  cases hf : s.timers.find? (fun t' => t'.id = tid) with
  | none => rw [timerFireStep_notfound hf]; exact h
  | some t =>
    cases hm : getModel s.models t.uri with
    | none =>
      rw [timerFireStep_found_nomodel hf hm]
      exact inv_timers_filter h _
    | some m =>
      rw [timerFireStep_found_model hf hm]
      have h2 := inv_timers_filter h (fun t' => t'.id ≠ tid)
      exact ⟨h2.tOK, h2.tBound, h2.idsNodup, h2.lModel⟩

theorem inv_createModelStep {sel : String} {s : SysState} {m : Model} (h : Inv s) :
    Inv (createModelStep sel s m) := by
  unfold createModelStep
  by_cases hg : (getModel s.models m.uri).isSome = true
  · rw [if_pos hg]; exact h
  · rw [if_neg hg]
    have hs1 : Inv { s with models := s.models ++ [m] } :=
      inv_of_stable h rfl rfl rfl (fun k hk => getModel_append_isSome hk)
    have hnt : ∀ t ∈ s.timers, t.uri ≠ m.uri := by
      intro t ht huri
      have h2 := h.tOK t ht
      rw [huri] at h2
      have h3 := h.lModel (m.uri, some t.id) (alookup_some_mem h2)
      exact hg h3
    have hm1 : (getModel (s.models ++ [m]) m.uri).isSome = true :=
      getModel_isSome_of_mem (List.mem_append_right _ (List.mem_singleton_self m))
    exact inv_onModelAdd hs1 hnt hm1

theorem inv_willDisposeStep {sel : String} {s : SysState} {uri : String} (h : Inv s) :
    Inv (willDisposeStep sel s uri) := by
  unfold willDisposeStep
  cases hg : getModel s.models uri with
  | none => exact h
  | some m =>
    dsimp only
    obtain ⟨h1, _, hnone⟩ := inv_onModelRemoved sel m h
    obtain ⟨hmodels, _, _, _⟩ := onModelRemoved_stable_fields sel s m
    have huri : m.uri = uri := (getModel_some_uri hg).1
    refine ⟨h1.tOK, h1.tBound, h1.idsNodup, ?_⟩
    · intro p hp
      have hpk : p.1 ≠ uri := by
        have := alookup_eq_none (by rw [← huri]; exact hnone) p hp
        rw [huri] at this
        exact this
      rw [getModel_filter_ne _ _ _ hpk]
      exact h1.lModel p hp

theorem inv_changeLanguageStep {sel : String} {s : SysState} {uri newMode : String}
    (h : Inv s) : Inv (changeLanguageStep sel s uri newMode) := by
  unfold changeLanguageStep
  cases hg : getModel s.models uri with
  | none => exact h
  | some m =>
    dsimp only
    have hs1 : Inv { s with
        models := updateModel s.models uri (fun mm => { mm with modeId := newMode }) } :=
      inv_of_stable h rfl rfl rfl
        (fun k hk =>
          (updateModel_isSome s.models uri k
            (fun mm => { mm with modeId := newMode }) (fun mm => rfl)).trans hk)
    obtain ⟨h2, hnt2, _⟩ :=
      inv_onModelRemoved sel { m with modeId := newMode } hs1
    obtain ⟨hmodels, _, _, _⟩ := onModelRemoved_stable_fields sel
      { s with models := updateModel s.models uri (fun mm => { mm with modeId := newMode }) }
      { m with modeId := newMode }
    have hm2 : (getModel (onModelRemoved sel { s with
        models := updateModel s.models uri (fun mm => { mm with modeId := newMode }) }
        { m with modeId := newMode }).models
        ({ m with modeId := newMode } : Model).uri).isSome = true := by
      rw [hmodels]
      show (getModel (updateModel s.models uri
        (fun mm => { mm with modeId := newMode })) m.uri).isSome = true
      rw [(getModel_some_uri hg).1]
      rw [updateModel_isSome s.models uri uri
        (fun mm => { mm with modeId := newMode }) (fun mm => rfl)]
      rw [hg]
      rfl
    exact inv_onModelAdd h2 hnt2 hm2

theorem inv_recompute_fold (sel : String) :
    ∀ (ms : List Model) (acc : SysState), Inv acc → (∀ m ∈ ms, m ∈ acc.models) →
      Inv (ms.foldl (fun a m => onModelAdd sel (onModelRemoved sel a m) m) acc)
  | [], _, h, _ => h
  | m :: ms, acc, h, hmem => by
    rw [List.foldl_cons]
    obtain ⟨h1, hnt1, _⟩ := inv_onModelRemoved sel m h
    obtain ⟨hmodels, _, _, _⟩ := onModelRemoved_stable_fields sel acc m
    have hm1 : (getModel (onModelRemoved sel acc m).models m.uri).isSome = true := by
      rw [hmodels]
      exact getModel_isSome_of_mem (hmem m (List.mem_cons_self _ _))
    have hb : Inv (onModelAdd sel (onModelRemoved sel acc m) m) :=
      inv_onModelAdd h1 hnt1 hm1
    have hbmodels : (onModelAdd sel (onModelRemoved sel acc m) m).models = acc.models := by
      rw [onModelAdd_models, hmodels]
    exact inv_recompute_fold sel ms _ hb
      (fun m' hm' => hbmodels ▸ hmem m' (List.mem_cons_of_mem _ hm'))

theorem inv_fireDidChangeStep {sel : String} {s : SysState} (h : Inv s) :
    Inv (fireDidChangeStep sel s) := by
  have hs1 : Inv { s with defaults := { s.defaults with
      changeFireCount := s.defaults.changeFireCount + 1 } } :=
    inv_of_stable h rfl rfl rfl (fun _ hk => hk)
  exact inv_recompute_fold sel _ _ hs1 (fun m hm => hm)

theorem inv_step (sel : String) {s : SysState} (h : Inv s) (e : Event) :
    Inv (step sel s e) := by
  cases e with
  | createModel m => exact inv_createModelStep h
  | willDisposeModel uri => exact inv_willDisposeStep h
  | changeLanguage uri nm => exact inv_changeLanguageStep h
  | edit u nl => exact inv_editStep h
  | timerFire tid => exact inv_timerFireStep h
  | workerResolve opId =>
    obtain ⟨hm, _, hl, ht, hn⟩ := workerResolvedStep_stable_fields s opId
    exact inv_of_stable h ht hl hn (fun k hk => by
      show (getModel (workerResolvedStep s opId).models k).isSome = true
      rw [hm]; exact hk)
  | workerReject opId => exact inv_of_stable h rfl rfl rfl (fun _ hk => hk)
  | diagsResolve opId diags =>
    obtain ⟨hm, hl, ht, hn⟩ := diagnosticsArrivedStep_stable_fields sel s opId diags
    exact inv_of_stable h ht hl hn (fun k hk => by
      show (getModel (diagnosticsArrivedStep sel s opId diags).models k).isSome = true
      rw [hm]; exact hk)
  | diagsReject opId => exact inv_of_stable h rfl rfl rfl (fun _ hk => hk)
  | fireDidChange => exact inv_fireDidChangeStep h
  | setMaxIdleTime v => exact inv_of_stable h rfl rfl rfl (fun _ hk => hk)
  | setEagerSync b => exact inv_of_stable h rfl rfl rfl (fun _ hk => hk)

theorem inv_foldl (sel : String) :
    ∀ (evs : List Event) (s : SysState), Inv s → Inv (evs.foldl (step sel) s)
  | [], _, h => h
  | e :: evs, s, h => by
    rw [List.foldl_cons]
    exact inv_foldl sel evs _ (inv_step sel h e)

theorem inv_runEvents (sel : String) (evs : List Event) : Inv (runEvents sel evs) :=
  inv_foldl sel evs initState
    ⟨fun t ht => absurd ht (List.not_mem_nil t),
     fun t ht => absurd ht (List.not_mem_nil t),
     List.nodup_nil,
     fun p hp => absurd hp (List.not_mem_nil p)⟩

theorem count_le_one_of_same_id :
    ∀ (l : List TimerRec) (u : String) (n : Nat),
      (l.map (fun t => t.id)).Nodup →
      (∀ t ∈ l, t.uri = u → t.id = n) →
      (l.filter (fun t => t.uri = u)).length ≤ 1
  | [], _, _, _, _ => by simp
  | a :: l, u, n, hnd, hall => by
    have hnd' : (l.map (fun t => t.id)).Nodup := (List.nodup_cons.mp hnd).2
    have hnotin : a.id ∉ l.map (fun t => t.id) := (List.nodup_cons.mp hnd).1
    by_cases ha : a.uri = u
    · rw [List.filter_cons, if_pos (by simp [ha])]
      have haid : a.id = n := hall a (List.mem_cons_self _ _) ha
      have hrest : l.filter (fun t => t.uri = u) = [] := by
        rw [List.filter_eq_nil_iff]
        intro t ht
        simp only [decide_eq_true_eq]
        intro htu
        have h1 : t.id ∈ l.map (fun t => t.id) := List.mem_map_of_mem _ ht
        rw [hall t (List.mem_cons_of_mem _ ht) htu, ← haid] at h1
        exact absurd h1 hnotin
      rw [hrest]
      simp
    · rw [List.filter_cons, if_neg (by simp [ha])]
      exact count_le_one_of_same_id l u n hnd'
        (fun t ht htu => hall t (List.mem_cons_of_mem _ ht) htu)

/-- From the invariant: every document has at most one pending debounce
timer. -/
theorem inv_timers_at_most_one {s : SysState} (h : Inv s) (u : String) :
    (timersFor s u).length ≤ 1 := by
  unfold timersFor
  cases hl : alookup s.listeners u with
  | none =>
    have hempty : s.timers.filter (fun t => t.uri = u) = [] := by
      rw [List.filter_eq_nil_iff]
      intro t ht
      simp only [decide_eq_true_eq]
      exact tracked_no_timer_mismatch h hl t ht
    rw [hempty]; simp
  | some hv =>
    cases hv with
    | none =>
      have hempty : s.timers.filter (fun t => t.uri = u) = [] := by
        rw [List.filter_eq_nil_iff]
        intro t ht
        simp only [decide_eq_true_eq]
        exact tracked_none_no_timer h hl t ht
      rw [hempty]; simp
    | some n =>
      refine count_le_one_of_same_id s.timers u n h.idsNodup ?_
      intro t ht htu
      have h2 := h.tOK t ht
      rw [htu, hl] at h2
      have h3 : n = t.id := by
        injection h2 with h4
        injection h4
      exact h3.symm

theorem find?_of_ids_nodup :
    ∀ {l : List TimerRec}, (l.map (fun t => t.id)).Nodup →
      ∀ {t : TimerRec}, t ∈ l → l.find? (fun x => x.id = t.id) = some t := by
  intro l
  induction l with
  | nil => intro _ t ht; cases ht
  | cons a l ih =>
    intro hnd t ht
    rcases List.mem_cons.mp ht with rfl | htl
    · rw [List.find?_cons_of_pos _ (by simp)]
    · have hne : ¬ (a.id = t.id) := by
        intro hh
        apply (List.nodup_cons.mp hnd).1
        show a.id ∈ List.map (fun t => t.id) l
        rw [hh]
        exact List.mem_map_of_mem _ htl
      rw [List.find?_cons_of_neg _ (by simp [hne])]
      exact ih (List.nodup_cons.mp hnd).2 htl

theorem getLast?_getD_cons {α : Type} :
    ∀ (l : List α) (a d : α), ((a :: l).getLast?).getD d = (l.getLast?).getD a
  | [], _, _ => by simp
  | b :: l, a, d => by
    rw [List.getLast?_cons_cons, getLast?_getD_cons l b d, getLast?_getD_cons l b a]

/-- One tracked edit: the invariant is preserved, no validation is issued,
the listener's handle now names the freshly scheduled timer, exactly that
timer (500 ms) is pending for the document, and the model's content is the
edit's content. -/
theorem editStep_tracked_shape {s : SysState} {u : String} (newLines : List String)
    (hInv : Inv s) {hd : Option Nat} (hl : alookup s.listeners u = some hd)
    {m0 : Model} (hm : getModel s.models u = some m0) :
    Inv (editStep s u newLines)
    ∧ (editStep s u newLines).pending = s.pending
    ∧ (editStep s u newLines).nextOp = s.nextOp
    ∧ alookup (editStep s u newLines).listeners u = some (some s.nextTimer)
    ∧ timersFor (editStep s u newLines) u
        = [{ id := s.nextTimer, uri := u, delayMs := 500 }]
    ∧ getModel (editStep s u newLines).models u = some { m0 with lines := newLines } := by
  refine ⟨inv_editStep hInv, ?_, ?_, ?_, ?_, ?_⟩
  · rw [editStep_tracked hl]
  · rw [editStep_tracked hl]
  · rw [editStep_tracked hl]
    exact alookup_aset_self _ _ _
  · rw [editStep_tracked hl]
    show (clearTimeout s.timers hd
        ++ [({ id := s.nextTimer, uri := u, delayMs := 500 } : TimerRec)]).filter
          (fun t => t.uri = u)
      = [({ id := s.nextTimer, uri := u, delayMs := 500 } : TimerRec)]
    rw [List.filter_append]
    have hsurv : (clearTimeout s.timers hd).filter (fun t => t.uri = u) = [] := by
      rw [List.filter_eq_nil_iff]
      intro t ht
      simp only [decide_eq_true_eq]
      exact clearTimeout_handle_no_uri hInv hl t ht
    rw [hsurv]
    simp
  · rw [editStep_tracked hl]
    show getModel (updateModel s.models u (fun m => { m with lines := newLines })) u
      = some { m0 with lines := newLines }
    rw [getModel_updateModel s.models u u
      (fun m => { m with lines := newLines }) (fun m => rfl), hm]
    simp [(getModel_some_uri hm).1]

/-- A burst of edits on a tracked document, starting from a state that
already carries exactly one fresh 500 ms timer for it: the invariant, the
absence of new validation passes, the single-timer shape and the model
content are maintained; after the whole burst the model's lines are the
last edit's lines (or the starting lines for an empty burst). -/
theorem burst_go (sel : String) (u : String) :
    ∀ (edits : List (List String)) (s : SysState) (lines0 : List String),
      Inv s →
      (∃ m0 : Model, getModel s.models u = some m0 ∧ m0.lines = lines0) →
      (∃ tid, alookup s.listeners u = some (some tid)
        ∧ timersFor s u = [{ id := tid, uri := u, delayMs := 500 }]) →
      Inv (applyBurst sel u edits s)
      ∧ (applyBurst sel u edits s).pending = s.pending
      ∧ (applyBurst sel u edits s).nextOp = s.nextOp
      ∧ (∃ tid, alookup (applyBurst sel u edits s).listeners u = some (some tid)
          ∧ timersFor (applyBurst sel u edits s) u
              = [{ id := tid, uri := u, delayMs := 500 }])
      ∧ (∃ mL : Model, getModel (applyBurst sel u edits s).models u = some mL
          ∧ mL.lines = (edits.getLast?).getD lines0)
  | [], s, lines0, hInv, hmodel, htimer => by
    exact ⟨hInv, rfl, rfl, htimer, by simpa using hmodel⟩
  | e :: rest, s, lines0, hInv, hmodel, htimer => by
    obtain ⟨m0, hm0, _⟩ := hmodel
    obtain ⟨tid, hl, _⟩ := htimer
    have hshape := editStep_tracked_shape e hInv hl hm0
    have happly : applyBurst sel u (e :: rest) s
        = applyBurst sel u rest (editStep s u e) := rfl
    have hrec := burst_go sel u rest (editStep s u e) e hshape.1
      ⟨{ m0 with lines := e }, hshape.2.2.2.2.2, rfl⟩
      ⟨s.nextTimer, hshape.2.2.2.1, hshape.2.2.2.2.1⟩
    rw [happly]
    refine ⟨hrec.1, ?_, ?_, hrec.2.2.2.1, ?_⟩
    · rw [hrec.2.1, hshape.2.1]
    · rw [hrec.2.2.1, hshape.2.2.1]
    · obtain ⟨mL, hmL, hlines⟩ := hrec.2.2.2.2
      exact ⟨mL, hmL, by rw [hlines, getLast?_getD_cons]⟩

/-- Claim C3: in every reachable state each document has at most one
pending debounce timer; a burst of N ≥ 1 rapid edits to a tracked document
(no timer expiry in between) issues no validation pass by itself, leaves
exactly one pending timer for the document — scheduled with the fixed
500 ms delay — and still at most one per document globally; and the expiry
of that single timer issues exactly one validation pass, whose contents are
the document's content as of the last edit of the burst. -/
theorem c3_debounce_coalesces (sel : String) (evs : List Event) (uri : String)
    (edits : List (List String)) (hne : edits ≠ [])
    (htr : isTracked (runEvents sel evs) uri = true) :
    (∀ u, (timersFor (runEvents sel evs) u).length ≤ 1)
    ∧ (applyBurst sel uri edits (runEvents sel evs)).pending = (runEvents sel evs).pending
    ∧ (∀ u, (timersFor (applyBurst sel uri edits (runEvents sel evs)) u).length ≤ 1)
    ∧ ∃ t : TimerRec,
        timersFor (applyBurst sel uri edits (runEvents sel evs)) uri = [t]
        ∧ t.delayMs = 500
        ∧ ∀ lastLines, edits.getLast? = some lastLines →
            (step sel (applyBurst sel uri edits (runEvents sel evs))
                (.timerFire t.id)).pending
              = (applyBurst sel uri edits (runEvents sel evs)).pending
                ++ [{ id := (applyBurst sel uri edits (runEvents sel evs)).nextOp,
                      uri := uri,
                      contents := String.intercalate "\n" lastLines,
                      stage := Stage.awaitingWorker }] := by
  have hInv := inv_runEvents sel evs
  have htr' : (alookup (runEvents sel evs).listeners uri).isSome = true := htr
  obtain ⟨hd, hl⟩ := Option.isSome_iff_exists.mp htr'
  obtain ⟨m0, hm0⟩ := Option.isSome_iff_exists.mp
    (hInv.lModel (uri, hd) (alookup_some_mem hl))
  cases edits with
  | nil => exact absurd rfl hne
  | cons e rest =>
    have hshape := editStep_tracked_shape e hInv hl hm0
    have hrec := burst_go sel uri rest (editStep (runEvents sel evs) uri e) e hshape.1
      ⟨{ m0 with lines := e }, hshape.2.2.2.2.2, rfl⟩
      ⟨(runEvents sel evs).nextTimer, hshape.2.2.2.1, hshape.2.2.2.2.1⟩
    have happly : applyBurst sel uri (e :: rest) (runEvents sel evs)
        = applyBurst sel uri rest (editStep (runEvents sel evs) uri e) := rfl
    obtain ⟨tid, hltid, htid⟩ := hrec.2.2.2.1
    refine ⟨fun u => inv_timers_at_most_one hInv u, ?_, ?_, ?_⟩
    · rw [happly, hrec.2.1, hshape.2.1]
    · intro u
      rw [happly]
      exact inv_timers_at_most_one hrec.1 u
    · refine ⟨{ id := tid, uri := uri, delayMs := 500 },
        by rw [happly]; exact htid, rfl, ?_⟩
      intro lastLines hlast
      have hlastval : lastLines = (rest.getLast?).getD e := by
        have h2 := getLast?_getD_cons rest e lastLines
        rw [hlast] at h2
        simpa using h2
      obtain ⟨mL, hmL, hmLlines⟩ := hrec.2.2.2.2
      have htmem : ({ id := tid, uri := uri, delayMs := 500 } : TimerRec)
          ∈ (applyBurst sel uri rest (editStep (runEvents sel evs) uri e)).timers := by
        have h3 : ({ id := tid, uri := uri, delayMs := 500 } : TimerRec)
            ∈ timersFor (applyBurst sel uri rest (editStep (runEvents sel evs) uri e)) uri := by
          rw [htid]
          exact List.mem_singleton_self _
        exact List.mem_of_mem_filter h3
      have hfind := find?_of_ids_nodup hrec.1.idsNodup htmem
      have hstep := timerFireStep_found_model hfind hmL
      rw [happly]
      show (timerFireStep (applyBurst sel uri rest
          (editStep (runEvents sel evs) uri e)) tid).pending = _
      rw [hstep]
      simp [contentOf, hmLlines, hlastval]

/-- Witness for C3: opening one tracked document and applying a burst of
two rapid edits issues no validation pass during the burst and leaves one
500 ms timer whose expiry issues exactly one pass with the last edit's
content. -/
theorem c3_debounce_witness :
    (applyBurst "botbuilderlg" "file:///w.lg" c3edits
        (runEvents "botbuilderlg" c3evs)).pending
      = (runEvents "botbuilderlg" c3evs).pending
    ∧ ∃ t : TimerRec,
        timersFor (applyBurst "botbuilderlg" "file:///w.lg" c3edits
          (runEvents "botbuilderlg" c3evs)) "file:///w.lg" = [t]
        ∧ t.delayMs = 500
        ∧ ∀ lastLines, c3edits.getLast? = some lastLines →
            (step "botbuilderlg" (applyBurst "botbuilderlg" "file:///w.lg" c3edits
                (runEvents "botbuilderlg" c3evs)) (.timerFire t.id)).pending
              = (applyBurst "botbuilderlg" "file:///w.lg" c3edits
                  (runEvents "botbuilderlg" c3evs)).pending
                ++ [{ id := (applyBurst "botbuilderlg" "file:///w.lg" c3edits
                        (runEvents "botbuilderlg" c3evs)).nextOp,
                      uri := "file:///w.lg",
                      contents := String.intercalate "\n" lastLines,
                      stage := Stage.awaitingWorker }] := by
  have h := c3_debounce_coalesces "botbuilderlg" c3evs "file:///w.lg" c3edits
    (by decide) (by decide)
  exact ⟨h.2.1, h.2.2.2⟩

end LG
